import Mathlib

/-!
# Verification of the Fundable Protocol stellar client

A shallow embedding, in Lean 4, of the accounting core and validation
utilities of the Fundable Protocol stellar client, together with proofs of
the specification's claims about them.

Strings from the TypeScript sources are embedded as `List Char`.
JavaScript `number` arithmetic on validated decimal numerals is modelled by
exact rational arithmetic (`ℚ`); this is exact for every value whose
smallest-unit representation fits in an IEEE double's integer range.
`BigInt` division/remainder are modelled by `Int.tdiv` / `Int.tmod`
(truncation toward zero), which is the semantics of `BigInt` `/` and `%`.

The file has two parts: first all definitions (the embedding), then all
theorems (the claims and their supporting lemmas).
-/

namespace Fundable

/-! ## JavaScript string primitives -/

/-- Characters removed by JavaScript `String.prototype.trim`
(WhiteSpace and LineTerminator code points). -/
def isJsWhitespace (c : Char) : Bool :=
  c == ' ' || c == '\t' || c == '\n' || c == '\r' || c == '\x0b' ||
  c == '\x0c' || c == '\xa0' || c == '\u2028' || c == '\u2029' || c == '\uFEFF'

/-- JavaScript `s.trim()`: drop leading and trailing whitespace. -/
def jsTrim (s : List Char) : List Char :=
  ((s.dropWhile isJsWhitespace).reverse.dropWhile isJsWhitespace).reverse

/-- Numeric value of the digit character `c`. -/
def digitVal (c : Char) : ℕ := c.toNat - 48

/-- Value of a big-endian list of digit characters. -/
def digitsVal (ds : List Char) : ℕ := ds.foldl (fun a c => 10 * a + digitVal c) 0

/-- Anchored match of the regular expression `[0-9]*\.?[0-9]*`:
a run of digits, then optionally a dot followed by a run of digits. -/
def matchesAmountRegex (t : List Char) : Bool :=
  match t.dropWhile Char.isDigit with
  | [] => true
  | c :: ds => c == '.' && ds.all Char.isDigit

/-- The rational denoted by a decimal numeral of the shape
`digits` or `digits.digits` (at least one digit in total); `none` when the
list is not of that shape (JavaScript `Number` would give `NaN` there).
This models `Number(t)` for the strings reaching it in `validateAmount`,
with the IEEE double idealized as an exact rational. -/
def numeralValue? (t : List Char) : Option ℚ :=
  let ip := t.takeWhile Char.isDigit
  match t.dropWhile Char.isDigit with
  | [] => if ip = [] then none else some (digitsVal ip)
  | '.' :: fp =>
      if fp.all Char.isDigit ∧ (ip ≠ [] ∨ fp ≠ []) then
        some ((digitsVal ip : ℚ) + (digitsVal fp : ℚ) / 10 ^ fp.length)
      else none
  | _ => none

/-- `trimmed.length - decimalIndex - 1` with `decimalIndex = trimmed.indexOf('.')`,
as computed in `validateAmount`; `0` when there is no decimal point. -/
def decimalPlaces (t : List Char) : ℕ :=
  match t.findIdx? (fun c => c == '.') with
  | none => 0
  | some i => t.length - i - 1

/-! ## `amount-validation.ts` -/

/-- `MAX_DECIMAL_PLACES` from `amount-validation.ts`. -/
def MAX_DECIMAL_PLACES : ℕ := 7

/-- `validateAmount` from `amount-validation.ts`: `none` when the amount is
valid, `some errorMessage` otherwise.  The branch structure mirrors the
source line by line; the source's local `trimmed` is written out as
`jsTrim amount` at each use site. -/
def validateAmount (amount : List Char) : Option String :=
  if amount = [] then some "Amount is required"
  else if jsTrim amount = [] then some "Amount cannot be empty"
  else if jsTrim amount ≠ amount then
    some "Amount cannot have leading or trailing whitespace"
  else if matchesAmountRegex (jsTrim amount) = false then
    some "Amount can only contain numbers and one decimal point"
  else if (jsTrim amount).head? = some '.' ∨ (jsTrim amount).getLast? = some '.' then
    some "Amount cannot start or end with a decimal point"
  else if 1 < (jsTrim amount).count '.' then
    some "Amount cannot have multiple decimal points"
  else
    match numeralValue? (jsTrim amount) with
    | none => some "Amount must be a valid number"
    | some num =>
        if num ≤ 0 then some "Amount must be greater than zero"
        else if MAX_DECIMAL_PLACES < decimalPlaces (jsTrim amount) then
          some "Amount cannot have more than 7 decimal places"
        else none

/-- `isValidAmount` from `amount-validation.ts`. -/
def isValidAmount (amount : List Char) : Bool :=
  (validateAmount amount).isNone

/-! ## `stellar-validation.ts` -/

/-- One character of the base32 body of a Stellar address: `A`-`Z` or `2`-`7`. -/
def isBase32Char (c : Char) : Bool :=
  ('A' ≤ c && c ≤ 'Z') || ('2' ≤ c && c ≤ '7')

/-- Anchored match of the regular expression `^[GC][A-Z2-7]{55}$`. -/
def matchesStellarRegex (a : List Char) : Bool :=
  match a with
  | [] => false
  | c :: rest => (c == 'G' || c == 'C') && rest.length == 55 && rest.all isBase32Char

/-- `isValidStellarAddress` from `stellar-validation.ts`. -/
def isValidStellarAddress (address : List Char) : Bool :=
  if address = [] then false
  else if address.length ≠ 56 then false
  else if ¬ (address.head? = some 'G' ∨ address.head? = some 'C') then false
  else matchesStellarRegex address

/-- `validateStellarAddress` from `stellar-validation.ts`: `none` when valid,
`some errorMessage` otherwise. -/
def validateStellarAddress (address : List Char) : Option String :=
  if address = [] then some "Address is required"
  else if jsTrim address ≠ address then
    some "Address cannot have leading or trailing whitespace"
  else if address.length = 0 then some "Address cannot be empty"
  else if address.length < 56 then
    some ("Address is too short (" ++ toString address.length ++
      " characters, expected 56)")
  else if 56 < address.length then
    some ("Address is too long (" ++ toString address.length ++
      " characters, expected 56)")
  else if ¬ (address.head? = some 'G' ∨ address.head? = some 'C') then
    some "Address must start with G (public key) or C (contract address)"
  else if matchesStellarRegex address = false then
    some "Address contains invalid characters (must be A-Z, 2-7)"
  else none

/-! ## Generated payment-stream bindings: the error table -/

/-- The sixteen payment-stream error kinds of the generated bindings
(`Errors` in `packages/sdk/src/generated/payment-stream/src/index.ts`),
as an inductive type. -/
inductive PaymentStreamError
  | AlreadyInitialized
  | NotInitialized
  | Unauthorized
  | InvalidAmount
  | InvalidTimeRange
  | StreamNotFound
  | StreamNotActive
  | StreamNotPaused
  | StreamCannotBeCanceled
  | InsufficientWithdrawable
  | TransferFailed
  | FeeTooHigh
  | InvalidRecipient
  | DepositExceedsTotal
  | ArithmeticOverflow
  | InvalidDelegate
  deriving DecidableEq, Repr

/-- `Errors[n].message` from the generated payment-stream bindings: the
error-code-to-message table (`undefined`, i.e. a missing key, is `none`). -/
def Errors (n : ℕ) : Option String :=
  if n = 1 then some "AlreadyInitialized"
  else if n = 2 then some "NotInitialized"
  else if n = 3 then some "Unauthorized"
  else if n = 4 then some "InvalidAmount"
  else if n = 5 then some "InvalidTimeRange"
  else if n = 6 then some "StreamNotFound"
  else if n = 7 then some "StreamNotActive"
  else if n = 8 then some "StreamNotPaused"
  else if n = 9 then some "StreamCannotBeCanceled"
  else if n = 10 then some "InsufficientWithdrawable"
  else if n = 11 then some "TransferFailed"
  else if n = 12 then some "FeeTooHigh"
  else if n = 13 then some "InvalidRecipient"
  else if n = 14 then some "DepositExceedsTotal"
  else if n = 15 then some "ArithmeticOverflow"
  else if n = 16 then some "InvalidDelegate"
  else none

/-- The numeric code of each error kind, per the generated table. -/
def errCode : PaymentStreamError → ℕ
  | .AlreadyInitialized => 1
  | .NotInitialized => 2
  | .Unauthorized => 3
  | .InvalidAmount => 4
  | .InvalidTimeRange => 5
  | .StreamNotFound => 6
  | .StreamNotActive => 7
  | .StreamNotPaused => 8
  | .StreamCannotBeCanceled => 9
  | .InsufficientWithdrawable => 10
  | .TransferFailed => 11
  | .FeeTooHigh => 12
  | .InvalidRecipient => 13
  | .DepositExceedsTotal => 14
  | .ArithmeticOverflow => 15
  | .InvalidDelegate => 16

/-- The message of each error kind, per the generated table. -/
def errName : PaymentStreamError → String
  | .AlreadyInitialized => "AlreadyInitialized"
  | .NotInitialized => "NotInitialized"
  | .Unauthorized => "Unauthorized"
  | .InvalidAmount => "InvalidAmount"
  | .InvalidTimeRange => "InvalidTimeRange"
  | .StreamNotFound => "StreamNotFound"
  | .StreamNotActive => "StreamNotActive"
  | .StreamNotPaused => "StreamNotPaused"
  | .StreamCannotBeCanceled => "StreamCannotBeCanceled"
  | .InsufficientWithdrawable => "InsufficientWithdrawable"
  | .TransferFailed => "TransferFailed"
  | .FeeTooHigh => "FeeTooHigh"
  | .InvalidRecipient => "InvalidRecipient"
  | .DepositExceedsTotal => "DepositExceedsTotal"
  | .ArithmeticOverflow => "ArithmeticOverflow"
  | .InvalidDelegate => "InvalidDelegate"

/-! ## Payment-stream data model (from the generated bindings) and the
vesting formula (modelled from the spec) -/

/-- `StreamStatus` from the generated payment-stream bindings. -/
inductive StreamStatus
  | Active
  | Paused
  | Canceled
  | Completed
  deriving DecidableEq, Repr

/-- `Stream` from the generated payment-stream bindings.  Addresses are
opaque and represented as `ℕ`; `u64` fields as `ℕ`; `i128` amounts as `ℤ`. -/
structure Stream where
  id : ℕ
  sender : ℕ
  recipient : ℕ
  token : ℕ
  total_amount : ℤ
  balance : ℤ
  withdrawn_amount : ℤ
  start_time : ℕ
  end_time : ℕ
  status : StreamStatus
  paused_at : Option ℕ
  total_paused_duration : ℕ
  deriving DecidableEq, Repr

/-- The largest `i128` value, used by the overflow checks. -/
def I128_MAX : ℤ := 2 ^ 127 - 1

/-- Modelled from the spec: `proportion(amount, numerator, denominator)` of
the contract's arithmetic utilities (the Rust contract source is not in the
repository; only its generated TypeScript binding is).  Computes
`amount * numerator / denominator` with a wide intermediate (exact `ℤ`
here), floor-rounded, failing with `ArithmeticOverflow` when an input is
negative, the denominator is zero, or the result does not fit in `i128`.
All operands are nonnegative past the guards, so `ℤ` floor division agrees
with Rust's truncating division. -/
def proportion (amount : ℤ) (numerator denominator : ℕ) :
    Except PaymentStreamError ℤ :=
  if amount < 0 then .error .ArithmeticOverflow
  else if denominator = 0 then .error .ArithmeticOverflow
  else if I128_MAX < amount * (numerator : ℤ) / (denominator : ℤ) then
    .error .ArithmeticOverflow
  else .ok (amount * (numerator : ℤ) / (denominator : ℤ))

/-- Modelled from the spec: the vesting reference time — `paused_at` when
the stream is `Paused`, the current time `now` otherwise. -/
def referenceTime (s : Stream) (now : ℕ) : ℕ :=
  if s.status = .Paused then s.paused_at.getD now else now

/-- Modelled from the spec: the elapsed vesting time
`clamp(reference_time - start_time, 0, end_time - start_time) -
total_paused_duration`, floored at 0.  Truncated subtraction on `ℕ`
provides both the lower clamp and the floor at 0. -/
def elapsedVesting (s : Stream) (now : ℕ) : ℕ :=
  min (referenceTime s now - s.start_time) (s.end_time - s.start_time) -
    s.total_paused_duration

/-- Modelled from the spec: the vested amount
`proportion(total_amount, elapsed, duration)`. -/
def vestedAmount (s : Stream) (now : ℕ) : Except PaymentStreamError ℤ :=
  proportion s.total_amount (elapsedVesting s now) (s.end_time - s.start_time)

/-- The pure value `total_amount * elapsed / duration` computed inside
`vestedAmount`. -/
def vestedValue (s : Stream) (now : ℕ) : ℤ :=
  s.total_amount * (elapsedVesting s now : ℤ) /
    ((s.end_time - s.start_time : ℕ) : ℤ)

/-- Modelled from the spec: `withdrawable_amount`:
`clamp(min(vested, balance) - withdrawn_amount, 0, balance - withdrawn_amount)`. -/
def withdrawableAmount (s : Stream) (now : ℕ) : Except PaymentStreamError ℤ :=
  match vestedAmount s now with
  | .error e => .error e
  | .ok vested =>
      .ok (max 0 (min (min vested s.balance - s.withdrawn_amount)
        (s.balance - s.withdrawn_amount)))

/-! ## Distributor contract: equal distribution (modelled from the spec) -/

/-- Modelled from the spec: the distributor's failure conditions for equal
distribution (the Rust distributor contract source is not in the
repository; the spec names the conditions, not their error codes). -/
inductive DistributorError
  | EmptyRecipients
  | InvalidAmount
  | AmountTooSmall
  | ArithmeticOverflow
  deriving DecidableEq, Repr

/-- The outcome of an equal distribution: the per-recipient payouts, the
protocol fee, and the floor-division remainder retained by the contract. -/
structure EqualDistribution where
  payouts : List (ℕ × ℤ)
  fee : ℤ
  remainder : ℤ
  deriving DecidableEq, Repr

/-- Modelled from the spec: `distribute_equal(sender, token, total_amount,
recipients)` of the distributor contract.  Requires `recipients` non-empty
and `total_amount > 0`; `fee = proportion(total_amount, fee_percent, 100)`;
`net = total_amount - fee`; requires `net ≥ recipients.len()`;
`share = net / recipients.len()` (integer floor) is paid to each recipient;
the remainder of the floor division is not distributed. -/
def distribute_equal (total_amount : ℤ) (fee_percent : ℕ)
    (recipients : List ℕ) : Except DistributorError EqualDistribution :=
  if recipients = [] then .error .EmptyRecipients
  else if total_amount ≤ 0 then .error .InvalidAmount
  else
    match proportion total_amount fee_percent 100 with
    | .error _ => .error .ArithmeticOverflow
    | .ok fee =>
        if total_amount - fee < (recipients.length : ℤ) then
          .error .AmountTooSmall
        else
          .ok ⟨recipients.map
              (fun r => (r, (total_amount - fee) / (recipients.length : ℤ))),
            fee, (total_amount - fee) % (recipients.length : ℤ)⟩

/-! ## JavaScript numbers: `parseFloat` and decimal rendering -/

/-- The result of JavaScript `parseFloat`: `NaN`, an infinity, or a finite
value (idealized as an exact rational). -/
inductive JsNum
  | nan
  | posInf
  | negInf
  | num (q : ℚ)
  deriving DecidableEq, Repr

/-- Does the list start with the word `Infinity`? -/
def hasInfinityHead (l : List Char) : Bool :=
  match l with
  | 'I' :: 'n' :: 'f' :: 'i' :: 'n' :: 'i' :: 't' :: 'y' :: _ => true
  | _ => false

/-- The exponent denoted by an optional `e`/`E`, optional sign, digits
suffix; `0` when the exponent is absent or incomplete (`parseFloat` keeps
the longest valid prefix). -/
def jsExponent (l : List Char) : ℤ :=
  match l with
  | 'e' :: r | 'E' :: r =>
      match r with
      | '+' :: r2 => (digitsVal (r2.takeWhile Char.isDigit) : ℤ)
      | '-' :: r2 => -(digitsVal (r2.takeWhile Char.isDigit) : ℤ)
      | r2 => (digitsVal (r2.takeWhile Char.isDigit) : ℤ)
  | _ => 0

/-- JavaScript `parseFloat`: skip leading whitespace, read an optional
sign, then the longest prefix shaped `Infinity`, `digits[.digits]` or
`.digits`, with an optional exponent; `NaN` when no digit can be read.
The IEEE double result is idealized as an exact rational. -/
def jsParseFloat (s : List Char) : JsNum :=
  let l := s.dropWhile isJsWhitespace
  let sign : ℤ := match l with | '-' :: _ => -1 | _ => 1
  let l2 := match l with | '-' :: r => r | '+' :: r => r | r => r
  if hasInfinityHead l2 then (if sign = 1 then .posInf else .negInf)
  else
    let ip := l2.takeWhile Char.isDigit
    let r1 := l2.dropWhile Char.isDigit
    let fp := match r1 with | '.' :: r => r.takeWhile Char.isDigit | _ => []
    let r2 := match r1 with | '.' :: r => r.dropWhile Char.isDigit | _ => r1
    if ip = [] ∧ fp = [] then .nan
    else
      .num ((sign : ℚ) *
        ((digitsVal ip : ℚ) + (digitsVal fp : ℚ) / 10 ^ fp.length) *
        10 ^ jsExponent r2)

/-- JavaScript `x <= 0` on a parsed value; comparisons with `NaN` are
false. -/
def jsLeZero : JsNum → Bool
  | .nan => false
  | .posInf => false
  | .negInf => true
  | .num q => decide (q ≤ 0)

/-- The decimal digit character for `n < 10` (total, clamped at `'9'`). -/
def digitChar (n : ℕ) : Char :=
  match n with
  | 0 => '0' | 1 => '1' | 2 => '2' | 3 => '3' | 4 => '4'
  | 5 => '5' | 6 => '6' | 7 => '7' | 8 => '8' | _ => '9'

/-- Little-endian decimal digit characters of `n` (repeated division by
ten), mirroring JavaScript number-to-string for integers. -/
def natRevDigits (n : ℕ) : List Char :=
  if n < 10 then [digitChar n]
  else digitChar (n % 10) :: natRevDigits (n / 10)
decreasing_by simp_wf; omega

/-- Big-endian decimal representation of a natural number. -/
def natRepr (n : ℕ) : List Char := (natRevDigits n).reverse

/-- Big-endian decimal representation of an integer. -/
def intRepr (i : ℤ) : List Char :=
  if i < 0 then '-' :: natRepr i.natAbs else natRepr i.toNat

/-- `Math.floor(x * 10000000).toString()` as applied by
`executeTransaction` to build the on-chain amount strings; `Math.floor`
maps `NaN` to `NaN` and keeps the infinities. -/
def stroopString : JsNum → List Char
  | .nan => ['N', 'a', 'N']
  | .posInf => ['I', 'n', 'f', 'i', 'n', 'i', 't', 'y']
  | .negInf => '-' :: ['I', 'n', 'f', 'i', 'n', 'i', 't', 'y']
  | .num q => intRepr ⌊q * 10000000⌋

/-! ## The distribution-transaction hook (`src/unnamed/part_011`) -/

/-- `DistributionType` from `types/distribution.ts`. -/
inductive DistributionType
  | equal
  | weighted
  deriving DecidableEq, Repr

/-- `Recipient` from `types/distribution.ts` — the fields
`executeTransaction` uses: the address and the optional amount string
(`none` models `undefined`). -/
structure Recipient where
  address : List Char
  amount : Option (List Char)
  deriving DecidableEq, Repr

/-- `DistributionState` from `types/distribution.ts` — the fields
`executeTransaction` uses. -/
structure DistributionState where
  type : DistributionType
  recipients : List Recipient
  totalAmount : List Char
  deriving DecidableEq, Repr

/-- The service call `executeTransaction` constructs: which distributor
entry point, with which stringified arguments. -/
inductive DistCall
  | equalCall (sender token totalAmountStroops : List Char)
      (recipients : List (List Char))
  | weightedCall (sender token : List Char) (recipients : List (List Char))
      (amounts : List (List Char))
  deriving DecidableEq, Repr

/-- The falsiness-or-nonpositive test `!r.amount || parseFloat(r.amount) <= 0`
applied per recipient by the weighted-validation step (`undefined` and the
empty string are the falsy amount values). -/
def invalidWeightedAmount (r : Recipient) : Bool :=
  (r.amount.getD [] == []) || jsLeZero (jsParseFloat (r.amount.getD []))

/-- `executeTransaction` from the distribution-transaction hook
(`src/unnamed/part_011`): its validation steps and the service call it
constructs.  An `Except.error` is the thrown error, thrown before any
service call is made; `Except.ok` carries the distributor call that is
submitted. -/
def executeTransaction (sender token : List Char)
    (state : DistributionState) : Except String DistCall :=
  if state.recipients.length = 0 then .error "No recipients provided"
  else if state.type = .equal ∧ state.totalAmount = [] then
    .error "Total amount is required for equal distribution"
  else if state.type = .weighted ∧
      state.recipients.any invalidWeightedAmount then
    .error "All recipients must have valid amounts for weighted distribution"
  else if state.type = .equal then
    .ok (.equalCall sender token
      (stroopString (jsParseFloat state.totalAmount))
      (state.recipients.map (fun r => r.address)))
  else
    .ok (.weightedCall sender token
      (state.recipients.map (fun r => r.address))
      (state.recipients.map
        (fun r => stroopString (jsParseFloat (r.amount.getD [])))))

/-! ## `amount-validation.ts`: stroop conversion -/

/-- JavaScript `Math.round`: half-up rounding toward positive infinity. -/
def jsRound (q : ℚ) : ℤ := ⌊q + 1 / 2⌋

/-- `amountToStroops` from `amount-validation.ts` at the default
`decimals = 7`: throws (`none`) on an invalid amount, otherwise
`BigInt(Math.round(Number(amount.trim()) * 10^7))`, the double idealized
as an exact rational (exact whenever the stroop value is below `2^53`). -/
def amountToStroops (amount : List Char) : Option ℤ :=
  if isValidAmount amount = false then none
  else
    match numeralValue? (jsTrim amount) with
    | some num => some (jsRound (num * 10 ^ 7))
    | none => none

/-- JavaScript `String.prototype.padStart`. -/
def padStart (l : List Char) (n : ℕ) (c : Char) : List Char :=
  List.replicate (n - l.length) c ++ l

/-- `replace(/0+$/, '')`: strip the maximal trailing run of `'0'`. -/
def stripTrailingZeros (l : List Char) : List Char :=
  (l.reverse.dropWhile (fun c => c == '0')).reverse

/-- `stroopsToAmount` from `amount-validation.ts` at the default
`decimals = 7`.  `BigInt` `/` and `%` truncate toward zero
(`Int.tdiv` / `Int.tmod`); the fractional part is padded to seven digits
and stripped of trailing zeros. -/
def stroopsToAmount (stroops : ℤ) : List Char :=
  if stroops.tmod ((10 : ℤ) ^ 7) = 0 then intRepr (stroops.tdiv ((10 : ℤ) ^ 7))
  else
    intRepr (stroops.tdiv ((10 : ℤ) ^ 7)) ++ '.' ::
      stripTrailingZeros (padStart (intRepr (stroops.tmod ((10 : ℤ) ^ 7))) 7 '0')

/-! ## `StreamProgressBar.tsx`: the progress statistics -/

/-- The record computed by `StreamProgressBar`'s `stats` memo. -/
structure StreamStats where
  withdrawnPercent : ℚ
  vestedPercent : ℚ
  remainingPercent : ℚ
  withdrawnSize : ℚ
  vestedSize : ℚ
  vestedNotWithdrawnSize : ℚ
  remainingSize : ℚ
  total : ℚ
  deriving DecidableEq, Repr

/-- `vestedSize` in the stats memo: linear vesting clamped to the
duration, zero before the start. -/
def sbVestedSize (total now start endT : ℚ) : ℚ :=
  if start < now then total * min (now - start) (endT - start) / (endT - start)
  else 0

/-- `currentVested = Math.min(total, Math.max(withdrawnSize, vestedSize))`. -/
def sbCurrentVested (total withdrawn vestedSize : ℚ) : ℚ :=
  min total (max withdrawn vestedSize)

/-- `withdrawnSizeClamped = Math.min(total, Math.max(0, withdrawnSize))`. -/
def sbWithdrawnClamped (total withdrawn : ℚ) : ℚ :=
  min total (max 0 withdrawn)

/-- `withdrawnPercent`, clamped to `[0, 100]`. -/
def sbWithdrawnPercent (total withdrawn : ℚ) : ℚ :=
  min 100 (max 0 (sbWithdrawnClamped total withdrawn / total * 100))

/-- `vestedNotWithdrawnSize = Math.max(0, currentVested - withdrawnSizeClamped)`. -/
def sbVestedNotWithdrawn (total withdrawn vestedSize : ℚ) : ℚ :=
  max 0 (sbCurrentVested total withdrawn vestedSize -
    sbWithdrawnClamped total withdrawn)

/-- `vestedPercent`, clamped to `[0, 100 - withdrawnPercent]`. -/
def sbVestedPercent (total withdrawn vestedSize : ℚ) : ℚ :=
  min (100 - sbWithdrawnPercent total withdrawn)
    (max 0 (sbVestedNotWithdrawn total withdrawn vestedSize / total * 100))

/-- `remainingPercent = Math.max(0, 100 - withdrawnPercent - vestedPercent)`. -/
def sbRemainingPercent (total withdrawn vestedSize : ℚ) : ℚ :=
  max 0 (100 - sbWithdrawnPercent total withdrawn -
    sbVestedPercent total withdrawn vestedSize)

/-- The `stats` computation of `StreamProgressBar.tsx`.  Inputs are the
already-parsed numbers (`parseFloat` of the amount strings and the
millisecond timestamps); IEEE doubles are idealized as exact rationals,
under which the `Number.isFinite` validity checks always hold, leaving
`total > 0` and `duration > 0`. -/
def streamStats (total withdrawn now start endT : ℚ) : StreamStats :=
  if 0 < total ∧ 0 < endT - start then
    ⟨sbWithdrawnPercent total withdrawn,
     sbVestedPercent total withdrawn (sbVestedSize total now start endT),
     sbRemainingPercent total withdrawn (sbVestedSize total now start endT),
     sbWithdrawnClamped total withdrawn,
     sbCurrentVested total withdrawn (sbVestedSize total now start endT),
     sbVestedNotWithdrawn total withdrawn (sbVestedSize total now start endT),
     max 0 (total - sbCurrentVested total withdrawn
       (sbVestedSize total now start endT)),
     total⟩
  else ⟨0, 0, 0, 0, 0, 0, 0, 0⟩

/-! # Theorems -/

/-! ## Supporting lemmas on strings -/

/-- `dropWhile` is the identity on a list none of whose elements satisfy
the predicate. -/
theorem dropWhile_eq_self_of_all (p : Char → Bool) (l : List Char)
    (h : ∀ x ∈ l, p x = false) : l.dropWhile p = l := by
  cases l with
  | nil => rfl
  | cons c cs => simp [List.dropWhile_cons, h c (List.mem_cons_self c cs)]

/-- `jsTrim` is the identity on whitespace-free strings. -/
theorem jsTrim_eq_self (l : List Char)
    (h : ∀ x ∈ l, isJsWhitespace x = false) : jsTrim l = l := by
  unfold jsTrim
  rw [dropWhile_eq_self_of_all _ _ h,
    dropWhile_eq_self_of_all _ _ (fun x hx => h x (by simpa using hx)),
    List.reverse_reverse]

/-! ## C7: amount validation rejects non-positive and malformed inputs -/

/-- An accepted amount string equals its own trim and denotes a
strictly positive rational with at most seven decimal places. -/
theorem validateAmount_eq_none (s : List Char) (hv : validateAmount s = none) :
    jsTrim s = s ∧
    ∃ q : ℚ, numeralValue? s = some q ∧ 0 < q ∧
      decimalPlaces s ≤ MAX_DECIMAL_PLACES := by
  unfold validateAmount at hv
  split_ifs at hv with h1 h2 h3 h4 h5 h6 h7
  · exfalso
    rcases hq : numeralValue? (jsTrim s) with _ | num
    all_goals rw [hq] at hv
    · simp at hv
    · have hv2 : (if num ≤ 0 then some "Amount must be greater than zero"
          else some "Amount cannot have more than 7 decimal places") =
          (none : Option String) := hv
      split_ifs at hv2
  · rw [not_not] at h3
    rw [h3] at hv h7
    refine ⟨h3, ?_⟩
    rcases hq : numeralValue? s with _ | num
    · rw [hq] at hv
      simp at hv
    · rw [hq] at hv
      have hv2 : (if num ≤ 0 then some "Amount must be greater than zero"
          else none) = (none : Option String) := hv
      split_ifs at hv2 with h8
      exact ⟨num, rfl, by linarith [not_le.mp h8], not_lt.mp h7⟩

/-- C7: every input string whose numeric value is non-positive, or that is
malformed (does not denote a decimal numeral), is rejected:
`validateAmount` returns an error message and `isValidAmount` returns
`false`. -/
theorem amount_validation_rejects_nonpositive (s : List Char)
    (h : numeralValue? s = none ∨ ∃ q : ℚ, numeralValue? s = some q ∧ q ≤ 0) :
    (validateAmount s).isSome = true ∧ isValidAmount s = false := by
  cases hv : validateAmount s with
  | none =>
      exfalso
      obtain ⟨-, q, hq, hq0, -⟩ := validateAmount_eq_none s hv
      rcases h with h | ⟨q', hq', hle⟩
      · rw [hq] at h; cases h
      · rw [hq] at hq'
        injection hq' with hqq
        subst hqq
        linarith
  | some msg => exact ⟨rfl, by simp [isValidAmount, hv]⟩

/-- Witness for C7 at the concrete malformed (negative) input `"-5"`. -/
theorem amount_validation_rejects_nonpositive_witness :
    (validateAmount ['-', '5']).isSome = true ∧
      isValidAmount ['-', '5'] = false :=
  amount_validation_rejects_nonpositive ['-', '5'] (Or.inl rfl)

/-! ## C8: the two Stellar-address validators agree -/

/-- A base32 character is not JavaScript whitespace. -/
theorem base32_not_ws (x : Char) (hb : isBase32Char x = true) :
    isJsWhitespace x = false := by
  by_contra hws
  rw [Bool.not_eq_false] at hws
  simp only [isJsWhitespace, Bool.or_eq_true, beq_iff_eq] at hws
  rcases hws with (((((((((h | h) | h) | h) | h) | h) | h) | h) | h) | h) <;>
    subst h <;> exact absurd hb (by decide)

/-- Structure forced by a match of `^[GC][A-Z2-7]{55}$`: nonempty,
length 56, leading `G` or `C`, and whitespace-free. -/
theorem matchesStellarRegex_shape (a : List Char)
    (h : matchesStellarRegex a = true) :
    a ≠ [] ∧ a.length = 56 ∧
      (a.head? = some 'G' ∨ a.head? = some 'C') ∧ jsTrim a = a := by
  match a with
  | [] => simp [matchesStellarRegex] at h
  | c :: rest =>
      simp only [matchesStellarRegex, Bool.and_eq_true, Bool.or_eq_true,
        beq_iff_eq, List.all_eq_true] at h
      obtain ⟨⟨hc, hlen⟩, hall⟩ := h
      refine ⟨by simp, by simp [hlen], ?_, ?_⟩
      · rcases hc with hc | hc <;> subst hc
        · exact Or.inl rfl
        · exact Or.inr rfl
      · refine jsTrim_eq_self _ ?_
        intro x hx
        rcases List.mem_cons.mp hx with hx | hx
        · subst hx
          rcases hc with hc | hc <;> subst hc <;> decide
        · exact base32_not_ws x (hall x hx)

/-- C8: the two Stellar-address validators accept exactly the same strings,
namely exactly the matches of `^[GC][A-Z2-7]{55}$`. -/
theorem stellar_validators_agree (a : List Char) :
    ((validateStellarAddress a = none) ↔ isValidStellarAddress a = true) ∧
    (isValidStellarAddress a = true ↔ matchesStellarRegex a = true) := by
  have hiv : isValidStellarAddress a = true ↔ matchesStellarRegex a = true := by
    constructor
    · intro h
      unfold isValidStellarAddress at h
      split_ifs at h
      exact h
    · intro h
      obtain ⟨hne, hlen, hhead, -⟩ := matchesStellarRegex_shape a h
      unfold isValidStellarAddress
      rw [if_neg hne, if_neg (by simp [hlen]), if_neg (not_not_intro hhead)]
      exact h
  have hvv : validateStellarAddress a = none ↔ matchesStellarRegex a = true := by
    constructor
    · intro h
      unfold validateStellarAddress at h
      split_ifs at h with g1 g2 g3 g4 g5 g6 g7
      simpa using g7
    · intro h
      obtain ⟨hne, hlen, hhead, htrim⟩ := matchesStellarRegex_shape a h
      unfold validateStellarAddress
      rw [if_neg hne, if_neg (not_not_intro htrim), if_neg (by omega),
        if_neg (by omega), if_neg (by omega), if_neg (not_not_intro hhead),
        if_neg (by simp [h])]
  exact ⟨hvv.trans hiv.symm, hiv⟩

/-! ## C4: the payment-stream error taxonomy -/

/-- C4: the generated error table holds exactly the sixteen error kinds,
numbered 1 through 16 in the stated order; the code assignment is
injective, so every error kind an operation surfaces is exactly one row of
the table. -/
theorem payment_stream_error_taxonomy :
    (∀ n : ℕ, (Errors n).isSome = true ↔ 1 ≤ n ∧ n ≤ 16) ∧
    (∀ e : PaymentStreamError, Errors (errCode e) = some (errName e)) ∧
    (∀ e f : PaymentStreamError, errCode e = errCode f → e = f) := by
  refine ⟨?_, ?_, ?_⟩
  · intro n
    rcases Nat.lt_or_ge n 17 with hlt | hge
    · interval_cases n <;> decide
    · have h1 : n ≠ 1 := by omega
      have h2 : n ≠ 2 := by omega
      have h3 : n ≠ 3 := by omega
      have h4 : n ≠ 4 := by omega
      have h5 : n ≠ 5 := by omega
      have h6 : n ≠ 6 := by omega
      have h7 : n ≠ 7 := by omega
      have h8 : n ≠ 8 := by omega
      have h9 : n ≠ 9 := by omega
      have h10 : n ≠ 10 := by omega
      have h11 : n ≠ 11 := by omega
      have h12 : n ≠ 12 := by omega
      have h13 : n ≠ 13 := by omega
      have h14 : n ≠ 14 := by omega
      have h15 : n ≠ 15 := by omega
      have h16 : n ≠ 16 := by omega
      have hnone : Errors n = none := by
        unfold Errors
        rw [if_neg h1, if_neg h2, if_neg h3, if_neg h4, if_neg h5, if_neg h6,
          if_neg h7, if_neg h8, if_neg h9, if_neg h10, if_neg h11, if_neg h12,
          if_neg h13, if_neg h14, if_neg h15, if_neg h16]
      rw [hnone]
      simp only [Option.isSome_none, Bool.false_eq_true, false_iff]
      omega
  · intro e
    cases e <;> rfl
  · intro e f h
    cases e <;> cases f <;> first | rfl | exact absurd h (by decide)

/-! ## C1: the vesting formula -/

/-- The elapsed vesting time never exceeds the stream duration. -/
theorem elapsedVesting_le_duration (s : Stream) (now : ℕ) :
    elapsedVesting s now ≤ s.end_time - s.start_time :=
  le_trans (Nat.sub_le _ _) (min_le_right _ _)

/-- The vested value is at most the total amount (for a valid time range
and nonnegative total). -/
theorem vestedValue_le_total (s : Stream) (now : ℕ)
    (hd : s.start_time < s.end_time) (h0 : 0 ≤ s.total_amount) :
    vestedValue s now ≤ s.total_amount := by
  have hdposZ : (0 : ℤ) < ((s.end_time - s.start_time : ℕ) : ℤ) := by
    exact_mod_cast Nat.sub_pos_of_lt hd
  calc s.total_amount * (elapsedVesting s now : ℤ) /
        ((s.end_time - s.start_time : ℕ) : ℤ)
      ≤ s.total_amount * ((s.end_time - s.start_time : ℕ) : ℤ) /
        ((s.end_time - s.start_time : ℕ) : ℤ) :=
        Int.ediv_le_ediv hdposZ (mul_le_mul_of_nonneg_left
          (by exact_mod_cast elapsedVesting_le_duration s now) h0)
    _ = s.total_amount := Int.mul_ediv_cancel _ (ne_of_gt hdposZ)

/-- C1: for every stream with a valid time range and an `i128`-ranged
nonnegative total amount, the vested amount at time `now` is computed by
the vesting formula: it equals the floor proportion
`total_amount * (clamp(reference_time - start_time, 0, duration) -
total_paused_duration) / duration` where `duration = end_time - start_time`
and `reference_time` is `paused_at` while the stream is `Paused` and `now`
otherwise — so time spent paused is excluded from the elapsed time. -/
theorem vesting_formula (s : Stream) (now : ℕ)
    (hd : s.start_time < s.end_time)
    (h0 : 0 ≤ s.total_amount) (hi : s.total_amount ≤ I128_MAX) :
    vestedAmount s now = .ok (vestedValue s now) ∧
    vestedValue s now =
      s.total_amount *
        ((min (referenceTime s now - s.start_time) (s.end_time - s.start_time)
          - s.total_paused_duration : ℕ) : ℤ) /
        ((s.end_time - s.start_time : ℕ) : ℤ) ∧
    (s.status = .Paused → ∀ p, s.paused_at = some p →
      referenceTime s now = p) ∧
    (s.status ≠ .Paused → referenceTime s now = now) := by
  refine ⟨?_, rfl, ?_, ?_⟩
  · unfold vestedAmount proportion
    rw [if_neg (not_lt.mpr h0), if_neg (Nat.sub_ne_zero_of_lt hd)]
    have hb : ¬ I128_MAX < s.total_amount * (elapsedVesting s now : ℤ) /
        ((s.end_time - s.start_time : ℕ) : ℤ) :=
      not_lt.mpr (le_trans (vestedValue_le_total s now hd h0) hi)
    rw [if_neg hb]
    rfl
  · intro hp p hpa
    unfold referenceTime
    rw [if_pos hp, hpa, Option.getD_some]
  · intro hp
    unfold referenceTime
    rw [if_neg hp]

/-- Witness for C1: the spec's scenario stream (`total = 1000`, linear from
`t = 0` to `t = 1000`), evaluated at `t = 500`: the vested amount is 500. -/
theorem vesting_formula_witness :
    vestedAmount ⟨1, 10, 11, 12, 1000, 1000, 0, 0, 1000,
      .Active, none, 0⟩ 500 = .ok 500 := by
  have h := vesting_formula
    ⟨1, 10, 11, 12, 1000, 1000, 0, 0, 1000, .Active, none, 0⟩ 500
    (by decide) (by decide) (by norm_num [I128_MAX])
  rw [h.1]
  rfl

/-! ## C2: vesting monotonicity -/

/-- C2: for a fixed stream with a valid time range and nonnegative total,
the vested value is non-decreasing in wall-clock time while the stream is
`Active`, and constant in wall-clock time while it is `Paused`. -/
theorem vesting_monotone (s : Stream) (now1 now2 : ℕ) (h12 : now1 ≤ now2)
    (hd : s.start_time < s.end_time) (h0 : 0 ≤ s.total_amount) :
    (s.status = .Active → vestedValue s now1 ≤ vestedValue s now2) ∧
    (s.status = .Paused → ∀ p, s.paused_at = some p →
      vestedValue s now1 = vestedValue s now2) := by
  constructor
  · intro ha
    have hdposZ : (0 : ℤ) < ((s.end_time - s.start_time : ℕ) : ℤ) := by
      exact_mod_cast Nat.sub_pos_of_lt hd
    have hne : s.status ≠ .Paused := by rw [ha]; intro hc; cases hc
    have href : ∀ n, referenceTime s n = n := fun n => by
      unfold referenceTime; rw [if_neg hne]
    have hel : elapsedVesting s now1 ≤ elapsedVesting s now2 := by
      unfold elapsedVesting
      rw [href now1, href now2]
      exact Nat.sub_le_sub_right
        (min_le_min (Nat.sub_le_sub_right h12 _) le_rfl) _
    exact Int.ediv_le_ediv hdposZ
      (mul_le_mul_of_nonneg_left (by exact_mod_cast hel) h0)
  · intro hp p hpa
    simp [vestedValue, elapsedVesting, referenceTime, hp, hpa]

/-- Witness for C2: the scenario stream paused at `t = 500`; the vested
value is the same at `t = 600` and `t = 800`, and the `Active` clause
applies to the unpaused stream between `t = 300` and `t = 500`. -/
theorem vesting_monotone_witness :
    vestedValue ⟨1, 10, 11, 12, 1000, 1000, 0, 0, 1000,
        .Paused, some 500, 0⟩ 600 =
      vestedValue ⟨1, 10, 11, 12, 1000, 1000, 0, 0, 1000,
        .Paused, some 500, 0⟩ 800 ∧
    vestedValue ⟨1, 10, 11, 12, 1000, 1000, 0, 0, 1000,
        .Active, none, 0⟩ 300 ≤
      vestedValue ⟨1, 10, 11, 12, 1000, 1000, 0, 0, 1000,
        .Active, none, 0⟩ 500 :=
  ⟨(vesting_monotone ⟨1, 10, 11, 12, 1000, 1000, 0, 0, 1000,
      .Paused, some 500, 0⟩ 600 800 (by decide) (by decide) (by decide)).2
      rfl 500 rfl,
   (vesting_monotone ⟨1, 10, 11, 12, 1000, 1000, 0, 0, 1000,
      .Active, none, 0⟩ 300 500 (by decide) (by decide) (by decide)).1 rfl⟩

/-! ## C3: equal distribution splits by integer floor division -/

set_option maxRecDepth 8192 in
/-- C3: a successful equal distribution pays every recipient exactly the
integer floor `net / recipients.length` of the net amount and leaves the
floor-division remainder unallocated (the distributed total plus the
remainder equals the net amount); concretely, 1000 with no fee among 4
recipients pays exactly 250 each with nothing left over, and 100 with no
fee among 3 recipients pays exactly 33 each with the 1-unit remainder
undistributed. -/
theorem distribute_equal_floor :
    (∀ (total : ℤ) (feePct : ℕ) (rs : List ℕ) (out : EqualDistribution),
      distribute_equal total feePct rs = .ok out →
      (∀ p ∈ out.payouts, p.2 = (total - out.fee) / (rs.length : ℤ)) ∧
      out.remainder = (total - out.fee) % (rs.length : ℤ) ∧
      (out.payouts.map Prod.snd).sum + out.remainder = total - out.fee) ∧
    distribute_equal 1000 0 [0, 1, 2, 3] =
      .ok ⟨[(0, 250), (1, 250), (2, 250), (3, 250)], 0, 0⟩ ∧
    distribute_equal 100 0 [0, 1, 2] =
      .ok ⟨[(0, 33), (1, 33), (2, 33)], 0, 1⟩ := by
  refine ⟨?_, rfl, rfl⟩
  intro total feePct rs out h
  unfold distribute_equal at h
  split_ifs at h with h1 h2
  rcases hf : proportion total feePct 100 with e | fee <;> rw [hf] at h
  · exact absurd h (by simp)
  · have h4 : (if total - fee < (rs.length : ℤ) then
        (.error .AmountTooSmall : Except DistributorError EqualDistribution)
      else .ok ⟨rs.map (fun r => (r, (total - fee) / (rs.length : ℤ))), fee,
        (total - fee) % (rs.length : ℤ)⟩) = .ok out := h
    split_ifs at h4 with h3
    injection h4 with h4
    subst h4
    refine ⟨?_, rfl, ?_⟩
    · intro p hp
      rcases List.mem_map.mp hp with ⟨r, hr, rfl⟩
      rfl
    · have hmap : (rs.map
          (fun r => ((r, (total - fee) / (rs.length : ℤ)) : ℕ × ℤ))).map
            Prod.snd
          = rs.map (fun _ => (total - fee) / (rs.length : ℤ)) := by
        rw [List.map_map]
        rfl
      show ((rs.map
          (fun r => ((r, (total - fee) / (rs.length : ℤ)) : ℕ × ℤ))).map
            Prod.snd).sum + (total - fee) % (rs.length : ℤ) = total - fee
      rw [hmap, List.map_const', List.sum_replicate, nsmul_eq_mul]
      exact Int.ediv_add_emod _ _

set_option maxRecDepth 8192 in
/-- Witness for C3: the general floor-division property instantiated at
the concrete distribution of 100 with no fee among three recipients. -/
theorem distribute_equal_floor_witness :
    ∀ p ∈ [((0 : ℕ), (33 : ℤ)), (1, 33), (2, 33)],
      p.2 = ((100 : ℤ) - 0) / ((3 : ℕ) : ℤ) :=
  (distribute_equal_floor.1 100 0 [0, 1, 2]
    ⟨[(0, 33), (1, 33), (2, 33)], 0, 1⟩ rfl).1

/-! ## C5: empty recipient lists always fail -/

/-- C5: executing a distribution whose recipient list is empty throws
`No recipients provided` before anything else, and no distributor call is
made — for every state, sender and token. -/
theorem empty_recipients_fails (sender token : List Char)
    (state : DistributionState) (h : state.recipients = []) :
    executeTransaction sender token state = .error "No recipients provided" ∧
    ∀ c : DistCall, executeTransaction sender token state ≠ .ok c := by
  have hlen : state.recipients.length = 0 := by rw [h]; rfl
  refine ⟨?_, ?_⟩
  · unfold executeTransaction
    rw [if_pos hlen]
  · intro c hc
    unfold executeTransaction at hc
    rw [if_pos hlen] at hc
    exact absurd hc (by simp)

/-- Witness for C5 at a concrete empty-recipients state. -/
theorem empty_recipients_fails_witness :
    executeTransaction ['s'] ['t']
        ⟨.equal, [], ['1']⟩ = .error "No recipients provided" :=
  (empty_recipients_fails ['s'] ['t'] ⟨.equal, [], ['1']⟩ rfl).1

/-! ## C6: weighted-amount validation -/

/-- C6 counterexample: a weighted state whose single declared amount
`"abc"` does not parse to a strictly positive number (it parses to `NaN`),
yet `executeTransaction` succeeds and submits the distributor call, with
the amount stringified as `"NaN"` — the claim that every such state fails
is false on the code. -/
theorem weighted_nan_amount_not_rejected :
    jsParseFloat ['a', 'b', 'c'] = JsNum.nan ∧
    executeTransaction ['s'] ['t']
        ⟨.weighted, [⟨['G'], some ['a', 'b', 'c']⟩], []⟩ =
      .ok (.weightedCall ['s'] ['t'] [['G']] [['N', 'a', 'N']]) :=
  ⟨rfl, rfl⟩

/-- C6 (amended): a weighted distribution in which some declared
per-recipient amount is missing (absent or the empty string) or parses to
a value less than or equal to zero fails as a whole with the
weighted-amount error, and no distributor call is made; an amount that
parses to `NaN` is not caught by this check. -/
theorem weighted_invalid_amount_fails (sender token : List Char)
    (state : DistributionState) (hw : state.type = .weighted)
    (hne : state.recipients.length ≠ 0)
    (h : ∃ r ∈ state.recipients, r.amount.getD [] = [] ∨
      jsLeZero (jsParseFloat (r.amount.getD [])) = true) :
    executeTransaction sender token state =
      .error "All recipients must have valid amounts for weighted distribution" ∧
    ∀ c : DistCall, executeTransaction sender token state ≠ .ok c := by
  have hany : state.recipients.any invalidWeightedAmount = true := by
    rw [List.any_eq_true]
    obtain ⟨r, hr, hcase⟩ := h
    refine ⟨r, hr, ?_⟩
    unfold invalidWeightedAmount
    rcases hcase with hc | hc
    · rw [Bool.or_eq_true, beq_iff_eq]
      exact Or.inl hc
    · rw [Bool.or_eq_true]
      exact Or.inr hc
  have hne2 : ¬ (state.type = .equal ∧ state.totalAmount = []) := by
    rintro ⟨he, -⟩
    rw [hw] at he
    cases he
  refine ⟨?_, ?_⟩
  · unfold executeTransaction
    rw [if_neg hne, if_neg hne2, if_pos ⟨hw, hany⟩]
  · intro c hc
    unfold executeTransaction at hc
    rw [if_neg hne, if_neg hne2, if_pos ⟨hw, hany⟩] at hc
    exact absurd hc (by simp)

/-- Witness for the amended C6 at a concrete state with a missing
per-recipient amount. -/
theorem weighted_invalid_amount_fails_witness :
    executeTransaction ['s'] ['t']
        ⟨.weighted, [⟨['G'], none⟩], []⟩ =
      .error "All recipients must have valid amounts for weighted distribution" :=
  (weighted_invalid_amount_fails ['s'] ['t']
    ⟨.weighted, [⟨['G'], none⟩], []⟩ rfl (by simp)
    ⟨⟨['G'], none⟩, List.mem_singleton.mpr rfl, Or.inl rfl⟩).1

/-! ## C10: the progress bar partitions the total -/

/-- The vested size is nonnegative on valid inputs. -/
theorem sbVestedSize_nonneg (total now start endT : ℚ)
    (htot : 0 < total) (hdur : 0 < endT - start) :
    0 ≤ sbVestedSize total now start endT := by
  unfold sbVestedSize
  split_ifs with h
  · have hmin : 0 ≤ min (now - start) (endT - start) :=
      le_min (by linarith) (by linarith)
    exact div_nonneg (mul_nonneg htot.le hmin) (by linarith)
  · exact le_rfl

/-- The clamped withdrawn size lies between 0 and the total. -/
theorem sbWithdrawnClamped_bounds (total withdrawn : ℚ) (htot : 0 < total) :
    0 ≤ sbWithdrawnClamped total withdrawn ∧
      sbWithdrawnClamped total withdrawn ≤ total :=
  ⟨le_min htot.le (le_max_left 0 withdrawn), min_le_left _ _⟩

/-- The clamped withdrawn size never exceeds the current vested size
(vested sizes being nonnegative). -/
theorem sbWithdrawnClamped_le_currentVested (total withdrawn v : ℚ)
    (hv : 0 ≤ v) :
    sbWithdrawnClamped total withdrawn ≤ sbCurrentVested total withdrawn v :=
  min_le_min le_rfl
    (max_le (le_trans hv (le_max_right withdrawn v)) (le_max_left withdrawn v))

/-- C10: whenever the inputs are valid (`total > 0` and
`end_time > start_time`; the finiteness checks always hold in the exact
model), the computed segments partition the total —
`withdrawnSize + vestedNotWithdrawnSize + remainingSize = total` — and the
three percentages each lie in `[0, 100]` and sum to exactly 100. -/
theorem stream_stats_partition (total withdrawn now start endT : ℚ)
    (st : StreamStats) (htot : 0 < total) (hdur : start < endT)
    (hst : streamStats total withdrawn now start endT = st) :
    st.withdrawnSize + st.vestedNotWithdrawnSize + st.remainingSize =
      st.total ∧
    st.total = total ∧
    (0 ≤ st.withdrawnPercent ∧ st.withdrawnPercent ≤ 100) ∧
    (0 ≤ st.vestedPercent ∧ st.vestedPercent ≤ 100) ∧
    (0 ≤ st.remainingPercent ∧ st.remainingPercent ≤ 100) ∧
    st.withdrawnPercent + st.vestedPercent + st.remainingPercent = 100 := by
  subst hst
  have hd2 : (0 : ℚ) < endT - start := by linarith
  unfold streamStats
  rw [if_pos ⟨htot, hd2⟩]
  dsimp only
  have hv0 : 0 ≤ sbVestedSize total now start endT :=
    sbVestedSize_nonneg total now start endT htot hd2
  obtain ⟨hwsc0, hwsct⟩ := sbWithdrawnClamped_bounds total withdrawn htot
  have hle : sbWithdrawnClamped total withdrawn ≤
      sbCurrentVested total withdrawn (sbVestedSize total now start endT) :=
    sbWithdrawnClamped_le_currentVested total withdrawn _ hv0
  have hcvt : sbCurrentVested total withdrawn
      (sbVestedSize total now start endT) ≤ total := min_le_left _ _
  have hvnw : sbVestedNotWithdrawn total withdrawn
        (sbVestedSize total now start endT) =
      sbCurrentVested total withdrawn (sbVestedSize total now start endT) -
        sbWithdrawnClamped total withdrawn :=
    max_eq_right (sub_nonneg.mpr hle)
  have hwp0 : 0 ≤ sbWithdrawnPercent total withdrawn :=
    le_min (by norm_num) (le_max_left _ _)
  have hwp100 : sbWithdrawnPercent total withdrawn ≤ 100 := min_le_left _ _
  have hvp0 : 0 ≤ sbVestedPercent total withdrawn
      (sbVestedSize total now start endT) :=
    le_min (by linarith) (le_max_left _ _)
  have hvple : sbVestedPercent total withdrawn
        (sbVestedSize total now start endT) ≤
      100 - sbWithdrawnPercent total withdrawn := min_le_left _ _
  have hrp : sbRemainingPercent total withdrawn
        (sbVestedSize total now start endT) =
      100 - sbWithdrawnPercent total withdrawn -
        sbVestedPercent total withdrawn (sbVestedSize total now start endT) :=
    max_eq_right (by linarith)
  refine ⟨?_, rfl, ⟨hwp0, hwp100⟩, ⟨hvp0, by linarith⟩,
    ⟨le_max_left _ _, ?_⟩, ?_⟩
  · rw [hvnw, max_eq_right (sub_nonneg.mpr hcvt)]
    ring
  · rw [hrp]
    linarith
  · rw [hrp]
    ring

/-- Witness for C10 at concrete inputs: total 100, withdrawn 20, a stream
from time 0 to 100 observed at time 50. -/
theorem stream_stats_partition_witness :
    (streamStats 100 20 50 0 100).withdrawnSize +
        (streamStats 100 20 50 0 100).vestedNotWithdrawnSize +
        (streamStats 100 20 50 0 100).remainingSize =
      (streamStats 100 20 50 0 100).total ∧
    (streamStats 100 20 50 0 100).total = 100 ∧
    (0 ≤ (streamStats 100 20 50 0 100).withdrawnPercent ∧
      (streamStats 100 20 50 0 100).withdrawnPercent ≤ 100) ∧
    (0 ≤ (streamStats 100 20 50 0 100).vestedPercent ∧
      (streamStats 100 20 50 0 100).vestedPercent ≤ 100) ∧
    (0 ≤ (streamStats 100 20 50 0 100).remainingPercent ∧
      (streamStats 100 20 50 0 100).remainingPercent ≤ 100) ∧
    (streamStats 100 20 50 0 100).withdrawnPercent +
        (streamStats 100 20 50 0 100).vestedPercent +
        (streamStats 100 20 50 0 100).remainingPercent = 100 :=
  stream_stats_partition 100 20 50 0 100 (streamStats 100 20 50 0 100)
    (by norm_num) (by norm_num) rfl

/-! ## C9: stroop conversion round-trips -/

/-- A digit character's value is at most 9. -/
theorem digitVal_le_nine (c : Char) (hc : c.isDigit = true) : digitVal c ≤ 9 := by
  unfold Char.isDigit at hc
  rw [Bool.and_eq_true, decide_eq_true_eq, decide_eq_true_eq] at hc
  have h9 := hc.2
  rw [UInt32.le_def, BitVec.le_def] at h9
  have h2 : c.toNat ≤ 57 := by simpa using h9
  unfold digitVal
  omega

/-- `digitChar` inverts `digitVal` below ten. -/
theorem digitVal_digitChar (r : ℕ) (h : r < 10) : digitVal (digitChar r) = r := by
  interval_cases r <;> rfl

/-- `digitChar` produces digit characters below ten. -/
theorem isDigit_digitChar (r : ℕ) (h : r < 10) : (digitChar r).isDigit = true := by
  interval_cases r <;> rfl

/-- The digit fold with an arbitrary accumulator. -/
theorem digitsVal_foldl (l : List Char) (a : ℕ) :
    l.foldl (fun x c => 10 * x + digitVal c) a =
      a * 10 ^ l.length + digitsVal l := by
  induction l generalizing a with
  | nil => simp [digitsVal]
  | cons c cs ih =>
      simp only [List.foldl_cons, List.length_cons]
      rw [ih (10 * a + digitVal c)]
      have hc : digitsVal (c :: cs) =
          (10 * 0 + digitVal c) * 10 ^ cs.length + digitsVal cs := by
        unfold digitsVal
        simp only [List.foldl_cons]
        rw [ih (10 * 0 + digitVal c)]
        rfl
      rw [hc]
      ring

/-- Peeling one digit off the front. -/
theorem digitsVal_cons (c : Char) (cs : List Char) :
    digitsVal (c :: cs) = digitVal c * 10 ^ cs.length + digitsVal cs := by
  unfold digitsVal
  simp only [List.foldl_cons]
  rw [digitsVal_foldl]
  ring_nf
  rfl

/-- The digit value of a concatenation. -/
theorem digitsVal_append (l1 l2 : List Char) :
    digitsVal (l1 ++ l2) = digitsVal l1 * 10 ^ l2.length + digitsVal l2 := by
  unfold digitsVal
  rw [List.foldl_append]
  exact digitsVal_foldl l2 _

/-- A run of zeros has digit value zero. -/
theorem digitsVal_replicate_zero (k : ℕ) :
    digitsVal (List.replicate k '0') = 0 := by
  induction k with
  | zero => rfl
  | succ k ih =>
      rw [List.replicate_succ, digitsVal_cons, ih,
        show digitVal '0' = 0 from rfl]
      simp

/-- A digit string's value is below `10 ^ length`. -/
theorem digitsVal_lt (l : List Char) (h : l.all Char.isDigit = true) :
    digitsVal l < 10 ^ l.length := by
  induction l with
  | nil => exact Nat.zero_lt_one
  | cons c cs ih =>
      rw [List.all_cons, Bool.and_eq_true] at h
      have h1 := digitVal_le_nine c h.1
      have h2 := ih h.2
      rw [digitsVal_cons, List.length_cons, pow_succ]
      nlinarith [pow_pos (by norm_num : (0 : ℕ) < 10) cs.length]

/-- `natRevDigits` produces a nonempty little-endian digit string whose
value is the input. -/
theorem natRevDigits_spec (n : ℕ) :
    (natRevDigits n).all Char.isDigit = true ∧ natRevDigits n ≠ [] ∧
      digitsVal (natRevDigits n).reverse = n := by
  induction n using Nat.strong_induction_on with
  | _ n ih =>
    rw [natRevDigits]
    by_cases h : n < 10
    · rw [if_pos h]
      refine ⟨?_, by simp, ?_⟩
      · simp [isDigit_digitChar n h]
      · simp [digitsVal_cons, digitVal_digitChar n h, digitsVal]
    · rw [if_neg h]
      obtain ⟨ha, hne, hval⟩ := ih (n / 10) (Nat.div_lt_self (by omega) (by omega))
      have hm : n % 10 < 10 := Nat.mod_lt _ (by omega)
      refine ⟨?_, by simp, ?_⟩
      · simp [List.all_cons, ha, isDigit_digitChar _ hm]
      · rw [List.reverse_cons, digitsVal_append, hval]
        simp [digitsVal_cons, digitsVal, digitVal_digitChar _ hm]
        omega

/-- `natRepr` produces a nonempty digit string whose value is the input. -/
theorem natRepr_spec (n : ℕ) :
    (natRepr n).all Char.isDigit = true ∧ natRepr n ≠ [] ∧
      digitsVal (natRepr n) = n := by
  obtain ⟨ha, hne, hval⟩ := natRevDigits_spec n
  refine ⟨?_, by simpa [natRepr] using hne, hval⟩
  unfold natRepr
  rw [List.all_eq_true] at ha ⊢
  intro x hx
  exact ha x (by simpa using hx)

/-- `natRevDigits` of a number below `10 ^ k` has at most `k` digits. -/
theorem natRevDigits_length_le (n k : ℕ) (hk : 1 ≤ k) (h : n < 10 ^ k) :
    (natRevDigits n).length ≤ k := by
  induction n using Nat.strong_induction_on generalizing k with
  | _ n ih =>
    rw [natRevDigits]
    by_cases h10 : n < 10
    · rw [if_pos h10]
      simpa using hk
    · rw [if_neg h10]
      have hk2 : 2 ≤ k := by
        by_contra hc
        have hk1 : k = 1 := by omega
        subst hk1
        simp at h
        omega
      have hdivlt : n / 10 < 10 ^ (k - 1) := by
        have hsplit : 10 ^ k = 10 ^ (k - 1) * 10 := by
          rw [← pow_succ]
          congr 1
          omega
        omega
      have := ih (n / 10) (Nat.div_lt_self (by omega) (by omega)) (k - 1)
        (by omega) hdivlt
      simp only [List.length_cons]
      omega

/-- `natRepr` of a number below `10 ^ k` has at most `k` characters. -/
theorem natRepr_length_le (n k : ℕ) (hk : 1 ≤ k) (h : n < 10 ^ k) :
    (natRepr n).length ≤ k := by
  unfold natRepr
  rw [List.length_reverse]
  exact natRevDigits_length_le n k hk h

/-- `intRepr` of a natural-number cast is `natRepr`. -/
theorem intRepr_natCast (n : ℕ) : intRepr ((n : ℕ) : ℤ) = natRepr n := by
  unfold intRepr
  rw [if_neg (not_lt.mpr (Int.natCast_nonneg n)), Int.toNat_natCast]

/-- `takeWhile`/`dropWhile` on a list all of whose elements satisfy the
predicate. -/
theorem takeWhile_all_eq (p : Char → Bool) (l : List Char)
    (h : l.all p = true) : l.takeWhile p = l ∧ l.dropWhile p = [] := by
  induction l with
  | nil => exact ⟨rfl, rfl⟩
  | cons c cs ih =>
      rw [List.all_cons, Bool.and_eq_true] at h
      obtain ⟨h1, h2⟩ := h
      obtain ⟨ht, hd⟩ := ih h2
      rw [List.takeWhile_cons, List.dropWhile_cons, if_pos h1, if_pos h1, ht, hd]
      exact ⟨rfl, rfl⟩

/-- `takeWhile`/`dropWhile` split at the first failing element. -/
theorem span_at (p : Char → Bool) (l1 : List Char) (c : Char)
    (l2 : List Char) (h1 : l1.all p = true) (hc : p c = false) :
    (l1 ++ c :: l2).takeWhile p = l1 ∧
      (l1 ++ c :: l2).dropWhile p = c :: l2 := by
  induction l1 with
  | nil =>
      rw [List.nil_append, List.takeWhile_cons, List.dropWhile_cons,
        if_neg (by simp [hc]), if_neg (by simp [hc])]
      exact ⟨rfl, rfl⟩
  | cons d ds ih =>
      rw [List.all_cons, Bool.and_eq_true] at h1
      obtain ⟨hd1, hd2⟩ := h1
      obtain ⟨ht, hdw⟩ := ih hd2
      rw [List.cons_append, List.takeWhile_cons, List.dropWhile_cons,
        if_pos hd1, if_pos hd1, ht, hdw]
      exact ⟨rfl, rfl⟩

/-- Every list is its trailing-zero-stripped prefix followed by a run of
zeros. -/
theorem stripTrailingZeros_decomp (l : List Char) :
    ∃ k, l = stripTrailingZeros l ++ List.replicate k '0' ∧
      (stripTrailingZeros l).length + k = l.length := by
  refine ⟨(l.reverse.takeWhile (fun c => c == '0')).length, ?_, ?_⟩
  · conv_lhs => rw [← List.reverse_reverse l,
      ← List.takeWhile_append_dropWhile (fun c => c == '0') l.reverse]
    rw [List.reverse_append]
    unfold stripTrailingZeros
    congr 1
    have hrep : l.reverse.takeWhile (fun c => c == '0') =
        List.replicate (l.reverse.takeWhile (fun c => c == '0')).length '0' := by
      apply List.eq_replicate_of_mem
      intro b hb
      have := List.mem_takeWhile_imp hb
      simpa using this
    rw [hrep, List.reverse_replicate, List.length_replicate]
  · unfold stripTrailingZeros
    rw [List.length_reverse]
    have := congrArg List.length
      (List.takeWhile_append_dropWhile (fun c => c == '0') l.reverse)
    rw [List.length_append, List.length_reverse] at this
    omega

/-- The value denoted by an all-digits numeral. -/
theorem numeralValue?_digits (l : List Char) (h : l.all Char.isDigit = true)
    (hne : l ≠ []) : numeralValue? l = some ((digitsVal l : ℚ)) := by
  obtain ⟨ht, hd⟩ := takeWhile_all_eq Char.isDigit l h
  unfold numeralValue?
  rw [ht, hd]
  show (if l = [] then none else some ((digitsVal l : ℚ))) = _
  rw [if_neg hne]

/-- The value denoted by a `digits.digits` numeral. -/
theorem numeralValue?_decimal (ip fp : List Char)
    (hip : ip.all Char.isDigit = true) (hfp : fp.all Char.isDigit = true)
    (hne : ip ≠ []) :
    numeralValue? (ip ++ '.' :: fp) =
      some ((digitsVal ip : ℚ) + (digitsVal fp : ℚ) / 10 ^ fp.length) := by
  obtain ⟨ht, hd⟩ := span_at Char.isDigit ip '.' fp hip (by decide)
  unfold numeralValue?
  rw [ht, hd]
  show (if fp.all Char.isDigit = true ∧ (ip ≠ [] ∨ fp ≠ []) then
      some ((digitsVal ip : ℚ) + (digitsVal fp : ℚ) / 10 ^ fp.length)
    else none) = _
  rw [if_pos ⟨hfp, Or.inl hne⟩]

/-- Inversion: a string denoting a value is an all-digits numeral or a
`digits.digits` numeral. -/
theorem numeralValue?_some_inv (t : List Char) (q : ℚ)
    (h : numeralValue? t = some q) :
    (t ≠ [] ∧ t.all Char.isDigit = true ∧ q = (digitsVal t : ℚ)) ∨
    (∃ ip fp, t = ip ++ '.' :: fp ∧
      ip.all Char.isDigit = true ∧ fp.all Char.isDigit = true ∧
      q = (digitsVal ip : ℚ) + (digitsVal fp : ℚ) / 10 ^ fp.length) := by
  unfold numeralValue? at h
  split at h
  · rename_i heq
    have hall : t.all Char.isDigit = true := by
      rw [List.all_eq_true]
      exact List.dropWhile_eq_nil_iff.mp heq
    have ht : t.takeWhile Char.isDigit = t := (takeWhile_all_eq _ _ hall).1
    rw [ht] at h
    have h2 : (if t = [] then none else some ((digitsVal t : ℚ))) = some q := h
    split_ifs at h2 with h1
    injection h2 with h2
    exact Or.inl ⟨h1, hall, h2.symm⟩
  · rename_i fp heq
    have h2 : (if fp.all Char.isDigit = true ∧
        (t.takeWhile Char.isDigit ≠ [] ∨ fp ≠ []) then
        some ((digitsVal (t.takeWhile Char.isDigit) : ℚ) +
          (digitsVal fp : ℚ) / 10 ^ fp.length)
      else none) = some q := h
    split_ifs at h2 with h1
    injection h2 with h2
    right
    have hsplit := List.takeWhile_append_dropWhile Char.isDigit t
    refine ⟨t.takeWhile Char.isDigit, fp, by rw [← heq, hsplit], ?_,
      h1.1, h2.symm⟩
    rw [List.all_eq_true]
    intro x hx
    exact List.mem_takeWhile_imp hx
  · exact absurd h (by simp)

/-- `findIdx?` locates the dot after a run of digits. -/
theorem findIdx?_dot (fp ip : List Char) :
    ip.all Char.isDigit = true → ∀ i,
      (ip ++ '.' :: fp).findIdx? (fun c => c == '.') i =
        some (i + ip.length) := by
  induction ip with
  | nil =>
      intro _ i
      simp [List.findIdx?]
  | cons d ds ih =>
      intro hall i
      rw [List.all_cons, Bool.and_eq_true] at hall
      have hd : (d == '.') = false := by
        have hne : d ≠ '.' := by
          intro hh
          subst hh
          exact absurd hall.1 (by decide)
        simpa using hne
      rw [List.cons_append, List.findIdx?, hd]
      simp only [Bool.false_eq_true, if_false]
      rw [ih hall.2 (i + 1)]
      congr 1
      simp [List.length_cons]
      omega

/-- The decimal-place count of a `digits.digits` numeral is the length of
its fractional part. -/
theorem decimalPlaces_concat (ip fp : List Char)
    (hip : ip.all Char.isDigit = true) :
    decimalPlaces (ip ++ '.' :: fp) = fp.length := by
  unfold decimalPlaces
  rw [show (ip ++ '.' :: fp).findIdx? (fun c => c == '.') =
    some (0 + ip.length) from findIdx?_dot fp ip hip 0]
  simp [List.length_append]

/-- `Math.round` is the identity on integers. -/
theorem jsRound_intCast (m : ℤ) : jsRound ((m : ℚ)) = m := by
  unfold jsRound
  rw [add_comm, Int.floor_add_int]
  norm_num

/-- Truncating division and remainder of `a * 10^7 + r` by `10^7`. -/
theorem tdiv_tmod_split (a r : ℕ) (hr : r < 10 ^ 7) :
    ((a * 10 ^ 7 + r : ℕ) : ℤ).tdiv ((10 : ℤ) ^ 7) = (a : ℤ) ∧
    ((a * 10 ^ 7 + r : ℕ) : ℤ).tmod ((10 : ℤ) ^ 7) = (r : ℤ) := by
  have hpos : (0 : ℤ) < 10 ^ 7 := by positivity
  have hcast : ((a * 10 ^ 7 + r : ℕ) : ℤ) = (r : ℤ) + 10 ^ 7 * (a : ℤ) := by
    push_cast
    ring
  constructor
  · rw [Int.tdiv_eq_ediv (by positivity) hpos.le, hcast,
      Int.add_mul_ediv_left _ _ (ne_of_gt hpos),
      Int.ediv_eq_zero_of_lt (by positivity) (by exact_mod_cast hr)]
    ring
  · rw [Int.tmod_eq_emod (by positivity) hpos.le, hcast,
      Int.add_mul_emod_self_left,
      Int.emod_eq_of_lt (by positivity) (by exact_mod_cast hr)]

/-- The value denoted by `stroopsToAmount (a * 10^7 + r)` is exactly
`a + r / 10^7`. -/
theorem stroopsToAmount_value (a r : ℕ) (hr : r < 10 ^ 7) :
    numeralValue? (stroopsToAmount ((a * 10 ^ 7 + r : ℕ) : ℤ)) =
      some ((a : ℚ) + (r : ℚ) / 10 ^ 7) := by
  obtain ⟨hdiv, hmod⟩ := tdiv_tmod_split a r hr
  unfold stroopsToAmount
  by_cases h0 : r = 0
  · subst h0
    rw [if_pos (by rw [hmod]; rfl)]
    rw [hdiv, intRepr_natCast]
    obtain ⟨hall, hne, hval⟩ := natRepr_spec a
    rw [numeralValue?_digits _ hall hne, hval]
    norm_num
  · rw [if_neg (by rw [hmod]; exact_mod_cast h0)]
    rw [hdiv, hmod, intRepr_natCast, intRepr_natCast]
    have hlen7 : (natRepr r).length ≤ 7 := natRepr_length_le r 7 (by omega) hr
    have hplen : (padStart (natRepr r) 7 '0').length = 7 := by
      unfold padStart
      rw [List.length_append, List.length_replicate]
      omega
    obtain ⟨hrall, hrne, hrval⟩ := natRepr_spec r
    have hpall : (padStart (natRepr r) 7 '0').all Char.isDigit = true := by
      unfold padStart
      rw [List.all_append, Bool.and_eq_true]
      refine ⟨?_, hrall⟩
      rw [List.all_eq_true]
      intro x hx
      rw [List.eq_of_mem_replicate hx]
      decide
    have hpval : digitsVal (padStart (natRepr r) 7 '0') = r := by
      unfold padStart
      rw [digitsVal_append, digitsVal_replicate_zero, hrval]
      ring
    obtain ⟨k, hdecomp, hklen⟩ :=
      stripTrailingZeros_decomp (padStart (natRepr r) 7 '0')
    have htrall : (stripTrailingZeros (padStart (natRepr r) 7 '0')).all
        Char.isDigit = true := by
      have h2 := hpall
      rw [hdecomp, List.all_append, Bool.and_eq_true] at h2
      exact h2.1
    have htrval : digitsVal (stripTrailingZeros (padStart (natRepr r) 7 '0')) *
        10 ^ k = r := by
      have h2 := hpval
      rw [hdecomp, digitsVal_append, digitsVal_replicate_zero,
        List.length_replicate] at h2
      omega
    have htrne : stripTrailingZeros (padStart (natRepr r) 7 '0') ≠ [] := by
      intro hnil
      rw [hnil] at htrval
      simp [digitsVal] at htrval
      omega
    obtain ⟨haall, hane, haval⟩ := natRepr_spec a
    rw [numeralValue?_decimal (natRepr a) _ haall htrall hane, haval]
    have hlen2 :
        (stripTrailingZeros (padStart (natRepr r) 7 '0')).length + k = 7 := by
      rw [hplen] at hklen
      exact hklen
    have hdd : ((digitsVal (stripTrailingZeros (padStart (natRepr r) 7 '0')) : ℚ)) /
        10 ^ (stripTrailingZeros (padStart (natRepr r) 7 '0')).length =
        (r : ℚ) / 10 ^ 7 := by
      rw [div_eq_div_iff (by positivity) (by positivity)]
      calc ((digitsVal (stripTrailingZeros (padStart (natRepr r) 7 '0')) : ℚ)) *
            10 ^ 7
          = (digitsVal (stripTrailingZeros (padStart (natRepr r) 7 '0')) : ℚ) *
            10 ^ ((stripTrailingZeros (padStart (natRepr r) 7 '0')).length + k) := by
            rw [hlen2]
        _ = ((digitsVal (stripTrailingZeros (padStart (natRepr r) 7 '0')) *
              10 ^ k : ℕ) : ℚ) *
            10 ^ (stripTrailingZeros (padStart (natRepr r) 7 '0')).length := by
            push_cast
            rw [pow_add]
            ring
        _ = (r : ℚ) *
            10 ^ (stripTrailingZeros (padStart (natRepr r) 7 '0')).length := by
            rw [htrval]
    rw [hdd]

/-- C9: for every valid amount string (at most seven decimal places; in
particular with no trailing fractional zeros), converting to stroops and
back denotes exactly the same numeric value. -/
theorem stroops_roundtrip (s : List Char)
    (hv : isValidAmount s = true)
    (hz : ¬ ('.' ∈ s ∧ s.getLast? = some '0')) :
    ∃ (st : ℤ) (q : ℚ), amountToStroops s = some st ∧
      numeralValue? s = some q ∧ 0 < q ∧
      numeralValue? (stroopsToAmount st) = some q := by
  have hvn : validateAmount s = none := by
    unfold isValidAmount at hv
    exact Option.isNone_iff_eq_none.mp hv
  obtain ⟨htrim, q, hq, hqpos, hdec⟩ := validateAmount_eq_none s hvn
  have hats : amountToStroops s = some (jsRound (q * 10 ^ 7)) := by
    unfold amountToStroops
    rw [if_neg (by rw [hv]; simp), htrim, hq]
  refine ⟨jsRound (q * 10 ^ 7), q, hats, hq, hqpos, ?_⟩
  rcases numeralValue?_some_inv s q hq with ⟨hne, hall, hqv⟩ |
    ⟨ip, fp, hs, hip, hfp, hqv⟩
  · have hN : q * 10 ^ 7 = ((digitsVal s * 10 ^ 7 + 0 : ℕ) : ℚ) := by
      rw [hqv]
      push_cast
      ring
    have hround : jsRound (q * 10 ^ 7) =
        ((digitsVal s * 10 ^ 7 + 0 : ℕ) : ℤ) := by
      rw [show jsRound (q * 10 ^ 7) =
        jsRound ((((digitsVal s * 10 ^ 7 + 0 : ℕ) : ℤ) : ℚ)) from by
          rw [hN]; norm_cast]
      exact jsRound_intCast _
    rw [hround, stroopsToAmount_value _ _ (by positivity), hqv]
    norm_num
  · have hd7 : fp.length ≤ 7 := by
      have h2 := hdec
      rw [hs, decimalPlaces_concat ip fp hip] at h2
      exact h2
    have hblt : digitsVal fp < 10 ^ fp.length := digitsVal_lt fp hfp
    have hr : digitsVal fp * 10 ^ (7 - fp.length) < 10 ^ 7 := by
      calc digitsVal fp * 10 ^ (7 - fp.length)
          < 10 ^ fp.length * 10 ^ (7 - fp.length) :=
            mul_lt_mul_of_pos_right hblt (by positivity)
        _ = 10 ^ 7 := by
            rw [← pow_add]
            congr 1
            omega
    have hpow : (10 : ℚ) ^ (7 - fp.length) * 10 ^ fp.length = 10 ^ 7 := by
      rw [← pow_add]
      congr 1
      omega
    have hfrac : ((digitsVal fp : ℚ) / 10 ^ fp.length) * 10 ^ 7 =
        (digitsVal fp : ℚ) * 10 ^ (7 - fp.length) := by
      rw [div_mul_eq_mul_div,
        div_eq_iff (by positivity : ((10 : ℚ) ^ fp.length) ≠ 0)]
      rw [mul_assoc, hpow]
    have hN : q * 10 ^ 7 = ((digitsVal ip * 10 ^ 7 +
        digitsVal fp * 10 ^ (7 - fp.length) : ℕ) : ℚ) := by
      rw [hqv]
      calc ((digitsVal ip : ℚ) + (digitsVal fp : ℚ) / 10 ^ fp.length) * 10 ^ 7
          = (digitsVal ip : ℚ) * 10 ^ 7 +
            ((digitsVal fp : ℚ) / 10 ^ fp.length) * 10 ^ 7 := by ring
        _ = (digitsVal ip : ℚ) * 10 ^ 7 +
            (digitsVal fp : ℚ) * 10 ^ (7 - fp.length) := by rw [hfrac]
        _ = _ := by push_cast; ring
    have hround : jsRound (q * 10 ^ 7) = ((digitsVal ip * 10 ^ 7 +
        digitsVal fp * 10 ^ (7 - fp.length) : ℕ) : ℤ) := by
      rw [show jsRound (q * 10 ^ 7) =
        jsRound ((((digitsVal ip * 10 ^ 7 +
          digitsVal fp * 10 ^ (7 - fp.length) : ℕ) : ℤ) : ℚ)) from by
          rw [hN]; norm_cast]
      exact jsRound_intCast _
    rw [hround, stroopsToAmount_value _ _ hr, hqv]
    have hXY : ((digitsVal fp * 10 ^ (7 - fp.length) : ℕ) : ℚ) / 10 ^ 7 =
        (digitsVal fp : ℚ) / 10 ^ fp.length := by
      rw [div_eq_div_iff (by positivity) (by positivity)]
      push_cast
      rw [mul_assoc, hpow]
    rw [hXY]

/-- Witness for C9 at the minimum amount `"0.0000001"`: it is a valid
amount, converts to exactly 1 stroop, and 1 stroop renders back as
`"0.0000001"`. -/
theorem stroops_roundtrip_witness :
    (∃ (st : ℤ) (q : ℚ),
      amountToStroops ['0', '.', '0', '0', '0', '0', '0', '0', '1'] =
        some st ∧
      numeralValue? ['0', '.', '0', '0', '0', '0', '0', '0', '1'] = some q ∧
      0 < q ∧ numeralValue? (stroopsToAmount st) = some q) ∧
    amountToStroops ['0', '.', '0', '0', '0', '0', '0', '0', '1'] =
      some 1 ∧
    stroopsToAmount 1 = ['0', '.', '0', '0', '0', '0', '0', '0', '1'] := by
  have hnum : numeralValue? ['0', '.', '0', '0', '0', '0', '0', '0', '1'] =
      some ((0 : ℚ) + (1 : ℚ) / 10 ^ 7) := by
    have h := numeralValue?_decimal ['0'] ['0', '0', '0', '0', '0', '0', '1']
      (by decide) (by decide) (by decide)
    simp only [List.cons_append, List.nil_append] at h
    rw [h, show digitsVal ['0'] = 0 from rfl,
      show digitsVal ['0', '0', '0', '0', '0', '0', '1'] = 1 from rfl,
      show (['0', '0', '0', '0', '0', '0', '1'] : List Char).length = 7 from rfl]
    norm_num
  have hva : validateAmount ['0', '.', '0', '0', '0', '0', '0', '0', '1'] =
      none := by
    have hstep : validateAmount ['0', '.', '0', '0', '0', '0', '0', '0', '1'] =
        (match numeralValue?
            (jsTrim ['0', '.', '0', '0', '0', '0', '0', '0', '1']) with
         | none => some "Amount must be a valid number"
         | some num =>
             if num ≤ 0 then some "Amount must be greater than zero"
             else if MAX_DECIMAL_PLACES < decimalPlaces
                 (jsTrim ['0', '.', '0', '0', '0', '0', '0', '0', '1']) then
               some "Amount cannot have more than 7 decimal places"
             else none) := rfl
    rw [hstep, show jsTrim ['0', '.', '0', '0', '0', '0', '0', '0', '1'] =
      ['0', '.', '0', '0', '0', '0', '0', '0', '1'] from by decide, hnum]
    have hA : ¬ ((0 : ℚ) + 1 / 10 ^ 7 ≤ 0) := by norm_num
    have hB : ¬ (MAX_DECIMAL_PLACES <
        decimalPlaces ['0', '.', '0', '0', '0', '0', '0', '0', '1']) := by
      decide
    show (if (0 : ℚ) + 1 / 10 ^ 7 ≤ 0 then
        some "Amount must be greater than zero"
      else if MAX_DECIMAL_PLACES <
          decimalPlaces ['0', '.', '0', '0', '0', '0', '0', '0', '1'] then
        some "Amount cannot have more than 7 decimal places"
      else none) = none
    rw [if_neg hA, if_neg hB]
  have hvalid : isValidAmount ['0', '.', '0', '0', '0', '0', '0', '0', '1'] =
      true := by
    unfold isValidAmount
    rw [hva]
    rfl
  have hone : amountToStroops ['0', '.', '0', '0', '0', '0', '0', '0', '1'] =
      some 1 := by
    unfold amountToStroops
    rw [if_neg (by rw [hvalid]; simp),
      show jsTrim ['0', '.', '0', '0', '0', '0', '0', '0', '1'] =
        ['0', '.', '0', '0', '0', '0', '0', '0', '1'] from by decide, hnum]
    show some (jsRound (((0 : ℚ) + 1 / 10 ^ 7) * 10 ^ 7)) = some 1
    congr 1
    unfold jsRound
    rw [show (((0 : ℚ) + 1 / 10 ^ 7) * 10 ^ 7) + 1 / 2 = 3 / 2 by norm_num,
      Int.floor_eq_iff]
    norm_num
  have hback : stroopsToAmount 1 =
      ['0', '.', '0', '0', '0', '0', '0', '0', '1'] := by
    have e0 : intRepr ((1 : ℤ).tdiv (10 ^ 7)) = ['0'] := by
      rw [show (1 : ℤ).tdiv (10 ^ 7) = 0 from by decide]
      simp [intRepr, natRepr, natRevDigits, digitChar]
    have e1 : intRepr ((1 : ℤ).tmod (10 ^ 7)) = ['1'] := by
      rw [show (1 : ℤ).tmod (10 ^ 7) = 1 from by decide]
      simp [intRepr, natRepr, natRevDigits, digitChar]
    unfold stroopsToAmount
    rw [if_neg (by decide), e0, e1]
    decide
  exact ⟨stroops_roundtrip _ hvalid (by decide), hone, hback⟩

end Fundable
